import Mathlib

/-!
Verification of the EV-engine betting-analysis pipeline.

Shallow embedding of the repository's core modules:
* `src/analysis.py`      — probability / EV math (pure functions),
* `src/validation.py` and `src/type_safety.py` — validators and type-safe coercions,
* `src/odds_api.py`      — the opportunity matcher `_find_and_save_ev_opportunities`,
* `src/db.py`            — the slip ledger (`create_slip`, `update_slip_status`,
                           `get_all_slips` P/L derivation).

Python floats are modelled as exact rationals (`ℚ`) where the code performs
field operations only, and as reals (`ℝ`) where the code takes real powers
(`calculate_breakeven_probability`).  For the type-safety coercion family,
where IEEE special values (inf/nan) are behaviourally relevant, floats are
modelled by `PyFloat` (a rational together with the three special values).
-/

namespace EvEngine

/-! ## Python dict machinery

Python `dict`s (string- or tuple-keyed) are modelled as insertion-ordered
association lists.  `dictSet` overwrites in place (keeping the key's original
position) or appends, exactly like Python dict assignment; `dictGet` is `d.get`.
-/

/-- Lookup in an insertion-ordered association list (`d.get(k)` / `d[k]`). -/
def dictGet {α β : Type} [DecidableEq α] : List (α × β) → α → Option β
  | [], _ => none
  | (k', v) :: t, k => if k = k' then some v else dictGet t k

/-- `d[k] = v`: overwrite in place if the key exists, else append. -/
def dictSet {α β : Type} [DecidableEq α] : List (α × β) → α → β → List (α × β)
  | [], k, v => [(k, v)]
  | (k', v') :: t, k, v => if k = k' then (k, v) :: t else (k', v') :: dictSet t k v

/-- `k in d`. -/
def dictContains {α β : Type} [DecidableEq α] (l : List (α × β)) (k : α) : Bool :=
  (dictGet l k).isSome

/-- `d.get(k, dflt)`. -/
def dictGetD {α β : Type} [DecidableEq α] (l : List (α × β)) (k : α) (d : β) : β :=
  (dictGet l k).getD d

/-- Ordered concatenation of the per-element emissions of a loop body
(the shape of the nested `for`-loops in the matcher). -/
def concatMap {α β : Type} (f : α → List β) : List α → List β
  | [] => []
  | a :: as => f a ++ concatMap f as

theorem mem_concatMap {α β : Type} (f : α → List β) (l : List α) (b : β) :
    b ∈ concatMap f l ↔ ∃ a ∈ l, b ∈ f a := by
  induction l with
  | nil => simp [concatMap]
  | cons a as ih => simp [concatMap, ih]

theorem dictGet_dictSet_self {α β : Type} [DecidableEq α]
    (l : List (α × β)) (k : α) (v : β) : dictGet (dictSet l k v) k = some v := by
  induction l with
  | nil => simp [dictGet, dictSet]
  | cons h t ih =>
    obtain ⟨k', v'⟩ := h
    by_cases hk : k = k' <;> simp [dictGet, dictSet, hk, ih]

theorem dictGet_dictSet_ne {α β : Type} [DecidableEq α]
    (l : List (α × β)) (k k' : α) (v : β) (h : k' ≠ k) :
    dictGet (dictSet l k v) k' = dictGet l k' := by
  induction l with
  | nil => simp [dictGet, dictSet, h]
  | cons hd t ih =>
    obtain ⟨k0, v0⟩ := hd
    by_cases hk : k = k0
    · subst hk; simp [dictGet, dictSet, h]
    · by_cases hk' : k' = k0 <;> simp [dictGet, dictSet, hk, hk', ih]

theorem dictGet_append_left {α β : Type} [DecidableEq α]
    (l l' : List (α × β)) (k : α) (v : β) (h : dictGet l k = some v) :
    dictGet (l ++ l') k = some v := by
  induction l with
  | nil => simp [dictGet] at h
  | cons hd t ih =>
    obtain ⟨k0, v0⟩ := hd
    by_cases hk : k = k0 <;> simp_all [dictGet]

/-! ## `src/analysis.py` — probability engine

All functions except `calculate_breakeven_probability` only use field
operations, so they are embedded over `ℚ`; `calculate_breakeven_probability`
takes a real power and is embedded over `ℝ` (together with the parlay
functions it is combined with in the round-trip claim).
-/

/-- `calculate_implied_probability` (analysis.py:11): American odds to implied
probability.  `if american_odds > 0: 100/(odds+100) else |odds|/(|odds|+100)`. -/
def calculate_implied_probability (americanOdds : ℤ) : ℚ :=
  if 0 < americanOdds then 100 / ((americanOdds : ℚ) + 100)
  else |(americanOdds : ℚ)| / (|(americanOdds : ℚ)| + 100)

/-- `devig_pinnacle_odds` (analysis.py:40): multiplicative vig removal —
normalize the two implied probabilities by their sum. -/
def devig_pinnacle_odds (overOdds underOdds : ℤ) : ℚ × ℚ :=
  let overImplied := calculate_implied_probability overOdds
  let underImplied := calculate_implied_probability underOdds
  let totalImplied := overImplied + underImplied
  (overImplied / totalImplied, underImplied / totalImplied)

/-- `calculate_ev_percentage` (analysis.py:85): `((fair/breakeven) - 1) * 100`.
The source's unused `parlay_legs` default parameter is omitted. -/
def calculate_ev_percentage (fairProb impliedBreakevenProb : ℚ) : ℚ :=
  ((fairProb / impliedBreakevenProb) - 1) * 100

/-- `calculate_parlay_probability` (analysis.py:130): running product starting
at `1.0` over the leg probabilities. -/
def calculate_parlay_probability (legProbabilities : List ℝ) : ℝ :=
  legProbabilities.foldl (fun p q => p * q) 1

/-- `calculate_parlay_ev` (analysis.py:156): `parlay probability * payout - 1`. -/
def calculate_parlay_ev (legProbabilities : List ℝ) (payoutMultiplier : ℝ) : ℝ :=
  calculate_parlay_probability legProbabilities * payoutMultiplier - 1

/-- `calculate_breakeven_probability` (analysis.py:190):
`(1 / payout_multiplier) ** (1 / num_legs)` (real power). -/
noncomputable def calculate_breakeven_probability (payoutMultiplier : ℝ) (numLegs : ℕ) : ℝ :=
  (1 / payoutMultiplier) ^ ((1 : ℝ) / (numLegs : ℝ))

/-! ## `src/type_safety.py` — validators used by the matcher -/

/-- `validate_american_odds` (type_safety.py:254): raises unless
`odds <= -100 or odds >= 100`; embedded as the success predicate. -/
def validate_american_odds (v : ℤ) : Bool :=
  decide (v ≤ -100 ∨ 100 ≤ v)

/-! ## `src/config.py` — matcher configuration constants -/

/-- `SHARP_BOOKMAKER` (config.py:37). -/
def SHARP_BOOKMAKER : String := "pinnacle"

/-- `FALLBACK_SHARP_BOOKMAKER` (config.py:38). -/
def FALLBACK_SHARP_BOOKMAKER : String := "fanduel"

/-- `DFS_BOOKMAKERS` (config.py:39). -/
def DFS_BOOKMAKERS : List String := ["prizepicks", "underdog", "betr_us_dfs", "pick6"]

/-- `SHARP_CONFIDENCE` (config.py:44). -/
def SHARP_CONFIDENCE : List (String × ℚ) := [("pinnacle", 1), ("fanduel", 0.75)]

/-- `DFS_BOOK_NAMES` (config.py:50). -/
def DFS_BOOK_NAMES : List (String × String) :=
  [("prizepicks", "PrizePicks"), ("underdog", "Underdog"),
   ("betr_us_dfs", "Betr"), ("pick6", "DK Pick6")]

/-- `IMPLIED_BREAKEVEN_PROB` (odds_api.py:778). -/
def IMPLIED_BREAKEVEN_PROB : ℚ := 0.5425

/-! ## `src/odds_api.py` — the opportunity matcher

`_find_and_save_ev_opportunities(records, db)` is embedded as a pure function
from the parsed records to the list of opportunity rows it would hand to
`db.insert_bet`, in emission order.  Records carry the fields the matcher
reads; `price` is an `Option ℤ` (`record.get("price")`, an already-parsed
integer American-odds value or absent), `point` a rational line value.
-/

/-- One parsed odds record as consumed by the matcher. -/
structure OddsRecord where
  eventId : String
  playerName : String
  marketKey : String
  point : ℚ
  bookmaker : String
  selection : String
  price : Option ℤ
  deriving DecidableEq, Repr

/-- One row handed to `db.insert_bet` (odds_api.py:902/918), field per keyword
argument. -/
structure Opportunity where
  eventId : String
  playerName : String
  market : String
  lineValue : ℚ
  pinnacleOverPrice : ℤ
  pinnacleUnderPrice : ℤ
  fairWinProb : ℚ
  evPercentage : ℚ
  dfsBook : String
  deriving DecidableEq, Repr

/-- The grouped view `grouped[(player, market, point)][bookmaker][selection]`. -/
abbrev GroupKey := String × String × ℚ

abbrev BookOdds := List (String × ℤ)

abbrev GroupBooks := List (String × BookOdds)

/-- One iteration of the grouping loop (odds_api.py:818–837): skip records
with a missing/empty required field, then
`grouped[key][bookmaker][selection] = price`. -/
def insertRecord (grouped : List (GroupKey × GroupBooks)) (r : OddsRecord) :
    List (GroupKey × GroupBooks) :=
  match r.price with
  | none => grouped
  | some price =>
    if r.playerName = "" ∨ r.marketKey = "" ∨ r.bookmaker = "" ∨ r.selection = "" then
      grouped
    else
      let key : GroupKey := (r.playerName, r.marketKey, r.point)
      let books := dictGetD grouped key []
      let sels := dictGetD books r.bookmaker []
      dictSet grouped key (dictSet books r.bookmaker (dictSet sels r.selection price))

/-- Sharp-reference selection (odds_api.py:845–853): Pinnacle preferred,
FanDuel fallback, otherwise the group is skipped. -/
def sharpSourceOf (books : GroupBooks) : Option String :=
  if dictContains books SHARP_BOOKMAKER then some SHARP_BOOKMAKER
  else if dictContains books FALLBACK_SHARP_BOOKMAKER then some FALLBACK_SHARP_BOOKMAKER
  else none

/-- The confidence haircut (odds_api.py:885–886):
`raw_ev * confidence if raw_ev > 0 else raw_ev`. -/
def applyConfidence (confidence rawEv : ℚ) : ℚ :=
  if 0 < rawEv then rawEv * confidence else rawEv

/-- Body of the `for dfs_book in DFS_BOOKMAKERS` loop (odds_api.py:893–930):
emit one row per side the DFS book quotes in this group. -/
def emitForBook (eventId player market : String) (point : ℚ)
    (sharpOver sharpUnder : ℤ) (fairO fairU evO evU : ℚ)
    (books : GroupBooks) (dfsBook : String) : List Opportunity :=
  match dictGet books dfsBook with
  | none => []
  | some dfsOdds =>
    let bookName := dictGetD DFS_BOOK_NAMES dfsBook dfsBook
    (if dictContains dfsOdds "Over" then
      [⟨eventId, player, market ++ "_over", point, sharpOver, sharpUnder, fairO, evO, bookName⟩]
     else []) ++
    (if dictContains dfsOdds "Under" then
      [⟨eventId, player, market ++ "_under", point, sharpOver, sharpUnder, fairU, evU, bookName⟩]
     else [])

/-- Per-group processing (odds_api.py:844–930).  The sharp prices are already
integers in the record stream, so the source's `safe_int` re-coercion is the
identity here; `validate_american_odds` gates both sharp sides. -/
def processGroup (eventId : String) (key : GroupKey) (books : GroupBooks) :
    List Opportunity :=
  match sharpSourceOf books with
  | none => []
  | some sharpSource =>
    let sharpOdds := dictGetD books sharpSource []
    match dictGet sharpOdds "Over", dictGet sharpOdds "Under" with
    | some sharpOver, some sharpUnder =>
      if validate_american_odds sharpOver && validate_american_odds sharpUnder then
        let confidence := dictGetD SHARP_CONFIDENCE sharpSource 0.75
        let fair := devig_pinnacle_odds sharpOver sharpUnder
        let rawOverEv := calculate_ev_percentage fair.1 IMPLIED_BREAKEVEN_PROB
        let rawUnderEv := calculate_ev_percentage fair.2 IMPLIED_BREAKEVEN_PROB
        let overEvPct := applyConfidence confidence rawOverEv
        let underEvPct := applyConfidence confidence rawUnderEv
        concatMap
          (emitForBook eventId key.1 key.2.1 key.2.2 sharpOver sharpUnder
            fair.1 fair.2 overEvPct underEvPct books)
          DFS_BOOKMAKERS
      else []
    | _, _ => []

/-- `_find_and_save_ev_opportunities` (odds_api.py:781): group the records,
then process each group in insertion order.  The `event_id` written on every
row is `records[0]["event_id"]` (only evaluated when something is emitted,
which requires a nonempty record list). -/
def find_and_save_ev_opportunities (records : List OddsRecord) : List Opportunity :=
  let grouped := records.foldl insertRecord []
  let eventId := match records with
    | [] => ""
    | r :: _ => r.eventId
  concatMap (fun g => processGroup eventId g.1 g.2) grouped

/-! ## Python value model for the type-safe coercion family

`src/type_safety.py` handles dynamically typed inputs, including IEEE special
float values, so its inputs are modelled by `PyVal` and floats by `PyFloat`
(an exact rational plus the three special values; finite rounding is not
modelled, which is faithful for every value these claims touch). -/

/-- A Python float: a finite (exact rational) value, an infinity, or NaN. -/
inductive PyFloat where
  | finite (q : ℚ)
  | inf
  | ninf
  | nan
  deriving DecidableEq, Repr

/-- A dynamically typed Python value (`bool` and other types are folded into
`vOther`; none of the claims depend on them). -/
inductive PyVal where
  | vInt (n : ℤ)
  | vFloat (f : PyFloat)
  | vStr (s : String)
  | vNone
  | vList (l : List PyVal)
  | vDict (d : List (String × PyVal))
  | vOther

/-- The exceptions the coercion family can encounter. -/
inductive PyErr where
  | valueError
  | overflowError
  deriving DecidableEq, Repr

/-- `isinstance(x, dict)`. -/
def PyVal.isDict : PyVal → Bool
  | .vDict _ => true
  | _ => false

/-- Value of a digit string (most significant first). -/
def digitsVal (l : List Char) : ℕ :=
  l.foldl (fun a c => a * 10 + (c.toNat - 48)) 0

/-- Split a leading run of decimal digits from the rest. -/
def splitDigits (l : List Char) : List Char × List Char :=
  (l.takeWhile Char.isDigit, l.dropWhile Char.isDigit)

/-- Exponent suffix of a Python float literal (after the `e`). -/
def parseExponent (mant : ℚ) (r : List Char) : Option ℚ :=
  let signed : ℤ × List Char :=
    match r with
    | '+' :: rr => (1, rr)
    | '-' :: rr => (-1, rr)
    | rr => (1, rr)
  let (ed, r4) := splitDigits signed.2
  if ed.isEmpty || !r4.isEmpty then none
  else some (mant * (10 : ℚ) ^ (signed.1 * (digitsVal ed : ℤ)))

/-- Unsigned decimal part of a Python float literal:
`digits [. digits] [e [sign] digits]`, at least one mantissa digit. -/
def parseDecimal (l : List Char) : Option ℚ :=
  let (ip, r1) := splitDigits l
  let (fp, r2) :=
    match r1 with
    | '.' :: r => splitDigits r
    | _ => ([], r1)
  if ip.isEmpty && fp.isEmpty then none
  else
    let mant : ℚ := (digitsVal (ip ++ fp) : ℚ) / (10 : ℚ) ^ fp.length
    match r2 with
    | [] => some mant
    | 'e' :: r => parseExponent mant r
    | _ => none

/-- Python `str.strip()` on a character list. -/
def pyStrip (l : List Char) : List Char :=
  ((l.dropWhile Char.isWhitespace).reverse.dropWhile Char.isWhitespace).reverse

/-- ASCII lowercasing of a character list. -/
def pyToLower (l : List Char) : List Char := l.map Char.toLower

/-- The builtin `float(str)` on a character list: strip whitespace, optional
sign, then `inf`/`infinity`/`nan` (case-insensitive) or a decimal literal.
Digit-group underscores and overflow of huge finite literals to infinity are
not modelled (no claim depends on them). -/
def pyParseFloatChars (l : List Char) : Option PyFloat :=
  let t := pyToLower (pyStrip l)
  let signed : Bool × List Char :=
    match t with
    | '+' :: r => (false, r)
    | '-' :: r => (true, r)
    | r => (false, r)
  let neg := signed.1
  let rest := signed.2
  if rest = "inf".data ∨ rest = "infinity".data then
    some (if neg then .ninf else .inf)
  else if rest = "nan".data then some .nan
  else (parseDecimal rest).map (fun q => .finite (if neg then -q else q))

/-- The builtin `float(str)`. -/
def pyParseFloat (s : String) : Option PyFloat :=
  pyParseFloatChars s.data

/-- Rational truncation toward zero (the builtin `int(float)` on finite
values). -/
def ratTruncate (q : ℚ) : ℤ :=
  if 0 ≤ q then ⌊q⌋ else -⌊-q⌋

/-- The builtin `int(float)`: truncates finite values; raises `ValueError` on
NaN and `OverflowError` on the infinities. -/
def pyIntOfFloat : PyFloat → Except PyErr ℤ
  | .finite q => .ok (ratTruncate q)
  | .nan => .error .valueError
  | .inf => .error .overflowError
  | .ninf => .error .overflowError

/-! ## `src/type_safety.py` — the coercion family -/

/-- `safe_currency_to_float` (type_safety.py:16): numbers pass through,
strings are cleaned of `$`/`,`/whitespace and parsed (`ValueError` caught,
returning `0.0`), anything else yields `0.0`.  Total: no uncaught raise. -/
def safe_currency_to_float (value : PyVal) : PyFloat :=
  match value with
  | .vInt n => .finite n
  | .vFloat f => f
  | .vStr s =>
    let clean := pyStrip ((s.data.filter (fun c => c ≠ '$')).filter (fun c => c ≠ ','))
    match pyParseFloatChars clean with
    | some f => f
    | none => .finite 0
  | _ => .finite 0

/-- `safe_int` (type_safety.py:134).  The `int` branch returns the value; the
`float` branch calls `int(value)` with NO try/except, so NaN/infinite floats
raise; the `str` branch wraps `int(float(value))` in `except ValueError`
only, so a string parsing to an infinity still raises `OverflowError`;
other types return the default. -/
def safe_int (value : PyVal) (dflt : ℤ) : Except PyErr ℤ :=
  match value with
  | .vInt n => .ok n
  | .vFloat f => pyIntOfFloat f
  | .vStr s =>
    match pyParseFloat s with
    | none => .ok dflt
    | some f =>
      match pyIntOfFloat f with
      | .ok n => .ok n
      | .error .valueError => .ok dflt
      | .error e => .error e
  | _ => .ok dflt

/-- `safe_float` (type_safety.py:169): numbers pass through, strings are
stripped and parsed (`ValueError` caught), other types default.  Total. -/
def safe_float (value : PyVal) (dflt : PyFloat) : PyFloat :=
  match value with
  | .vInt n => .finite n
  | .vFloat f => f
  | .vStr s =>
    match pyParseFloatChars (pyStrip s.data) with
    | some f => f
    | none => dflt
  | _ => dflt

/-- The `type` argument of `safe_dict_get`. -/
inductive PyType where
  | tInt
  | tFloat
  | tStr
  | tList
  | tDict
  deriving DecidableEq

/-- `isinstance(v, t)`. -/
def pyIsInstance (v : PyVal) (t : PyType) : Bool :=
  match v, t with
  | .vInt _, .tInt => true
  | .vFloat _, .tFloat => true
  | .vStr _, .tStr => true
  | .vList _, .tList => true
  | .vDict _, .tDict => true
  | _, _ => false

/-- `safe_dict_get` (type_safety.py:92): non-dict input yields the default;
otherwise `data.get(key, default)`, with the type check skipped for `None`
values.  Total. -/
def safe_dict_get (data : PyVal) (key : String) (dflt : PyVal)
    (expectedType : Option PyType) : PyVal :=
  match data with
  | .vDict d =>
    let value := dictGetD d key dflt
    match expectedType with
    | some t =>
      match value with
      | .vNone => value
      | _ => if pyIsInstance value t then value else dflt
    | none => value
  | _ => dflt

/-- Python list indexing (`lst[i]`), including negative indices. -/
def pyListIndex (l : List PyVal) (i : ℤ) : Option PyVal :=
  if 0 ≤ i then l.get? i.toNat
  else if 0 ≤ i + l.length then l.get? (i + l.length).toNat
  else none

/-- `safe_list_get` (type_safety.py:295): non-list input yields the default;
`IndexError` is caught and yields the default.  Total. -/
def safe_list_get (lst : PyVal) (index : ℤ) (dflt : PyVal) : PyVal :=
  match lst with
  | .vList l => (pyListIndex l index).getD dflt
  | _ => dflt

/-! ## `src/db.py` — the slip ledger

The `slips`/`slip_legs` tables are modelled as in-memory lists; sqlite's
`lastrowid` allocation as a `nextId` counter; the schema defaults
`payout REAL DEFAULT 0.0`, `status TEXT DEFAULT 'Pending'` are applied at
insertion.  Stored numeric columns are exact rationals; `safe_float` applied
by the source to a value read back from a numeric column is the identity and
is elided. -/

/-- One row of the `slips` table. -/
structure Slip where
  book : String
  stake : ℚ
  payout : ℚ
  status : String
  note : Option String
  deriving DecidableEq, Repr

/-- One row of the `slip_legs` table (`player`/`market` are nullable TEXT
columns). -/
structure SlipLeg where
  slipId : ℕ
  player : Option String
  market : Option String
  line : PyFloat
  deriving DecidableEq, Repr

/-- The persisted ledger state. -/
structure LedgerState where
  slips : List (ℕ × Slip)
  slipLegs : List SlipLeg
  nextId : ℕ
  deriving DecidableEq, Repr

/-- `safe_dict_get(leg, k, default="Unknown", expected_type=str)` composed
with TEXT-column storage: a string is stored as itself, a `None` value as
NULL, a missing key or wrongly typed value as `"Unknown"`. -/
def legStrField (d : List (String × PyVal)) (k : String) : Option String :=
  match safe_dict_get (.vDict d) k (.vStr "Unknown") (some .tStr) with
  | .vStr s => some s
  | _ => none

/-- `line = safe_float(leg.get("line"), 0.0) if ... is not None else 0.0`
(db.py:960–961). -/
def legLineField (d : List (String × PyVal)) : PyFloat :=
  match dictGet d "line" with
  | none => .finite 0
  | some .vNone => .finite 0
  | some v => safe_float v (.finite 0)

/-- One iteration of the leg-insertion loop of `create_slip` (db.py:953–970):
a non-dict leg is skipped with a warning, a dict leg becomes a `slip_legs`
row via the type-safe field extractions. -/
def insertLegRow (slipId : ℕ) (s : LedgerState) (leg : PyVal) : LedgerState :=
  match leg with
  | .vDict d =>
    { s with slipLegs := s.slipLegs ++
        [⟨slipId, legStrField d "player", legStrField d "market", legLineField d⟩] }
  | _ => s

/-- `create_slip` (db.py:909): validate stake and the legs list, insert the
slip row (schema defaults: payout 0, status `Pending`), then insert one leg
row per WELL-FORMED leg — non-dict legs are skipped with a warning.
`stake_value = safe_float(stake, 0.0)` is the identity on the float-typed
`stake` argument. -/
def create_slip (st : LedgerState) (book : String) (stake : ℚ)
    (legs : List PyVal) (note : Option String) : Except String (ℕ × LedgerState) :=
  if stake ≤ 0 then .error "Stake must be greater than 0"
  else if legs.isEmpty then .error "Legs must be a non-empty list"
  else
    .ok (st.nextId,
      legs.foldl (insertLegRow st.nextId)
        { st with slips := st.slips ++ [(st.nextId, ⟨book, stake, 0, "Pending", note⟩)],
                  nextId := st.nextId + 1 })

/-- `update_slip_status` (db.py:982): look up the slip's stake (absent id:
return `False`, no change), clamp a negative payout to `0`, classify the
status by the payout-vs-stake chain, persist status and clamped payout. -/
def update_slip_status (st : LedgerState) (slipId : ℕ) (payout : ℚ) :
    Bool × LedgerState :=
  match dictGet st.slips slipId with
  | none => (false, st)
  | some slip =>
    let stake := slip.stake
    let payoutValue := if payout < 0 then 0 else payout
    let status :=
      if stake < payoutValue then "Profit"
      else if payoutValue = stake then "Push"
      else if 0 < payoutValue then "Partial"
      else "Lost"
    (true,
      { st with slips :=
          dictSet st.slips slipId { slip with status := status, payout := payoutValue } })

/-- The derived P/L of one listed slip (db.py:1207–1215, inside
`get_all_slips`): `payout - stake` for `Won`, `-stake` for `Lost`, `0` for
`Push`, and `None` (displayed `-`) for every other status. -/
def slip_pl (status : String) (stake payout : ℚ) : Option ℚ :=
  if status = "Won" then some (payout - stake)
  else if status = "Lost" then some (-stake)
  else if status = "Push" then some (0 : ℚ)
  else none

/-- The P/L-relevant projection of `get_all_slips` (db.py:1105): each slip row
with its status and derived P/L annotation (ordering/formatting elided). -/
def get_all_slips (st : LedgerState) : List (ℕ × String × Option ℚ) :=
  st.slips.map (fun e => (e.1, e.2.status, slip_pl e.2.status e.2.stake e.2.payout))

/-- The status of a stored slip. -/
def statusAt (st : LedgerState) (slipId : ℕ) : Option String :=
  (dictGet st.slips slipId).map Slip.status

/-- The terminal settlement statuses (spec §3). -/
def terminalStatuses : List String := ["Profit", "Push", "Partial", "Lost"]

/-! ## Concrete instances used by witnesses and counterexamples -/

/-- A concrete pending slip for the C6 witness. -/
def c6Slip : Slip := ⟨"PrizePicks", 10, 0, "Pending", none⟩

/-- A concrete one-slip ledger for the C6 witness. -/
def c6State : LedgerState := ⟨[(1, c6Slip)], [], 2⟩

/-- A reachable ledger: one slip (stake 10) created from the empty ledger. -/
def c7State : LedgerState :=
  ⟨[(1, ⟨"PrizePicks", 10, 0, "Pending", none⟩)],
    [⟨1, some "LeBron James", some "points_over", .finite 25.5⟩], 2⟩

/-- The legs list creating `c7State`. -/
def c7Legs : List PyVal :=
  [.vDict [("player", .vStr "LeBron James"), ("market", .vStr "points_over"),
    ("line", .vFloat (.finite 25.5))]]

/-- A concrete matcher group: Pinnacle quotes both sides at -110, PrizePicks
quotes only the Over. -/
def c4Books : GroupBooks :=
  [("pinnacle", [("Over", -110), ("Under", -110)]), ("prizepicks", [("Over", -110)])]

/-- The opportunity the matcher emits from `c4Books`. -/
def c4Opp : Opportunity :=
  ⟨"e", "p", "m_over", 1, -110, -110, (devig_pinnacle_odds (-110) (-110)).1,
    applyConfidence (dictGetD SHARP_CONFIDENCE "pinnacle" 0.75)
      (calculate_ev_percentage (devig_pinnacle_odds (-110) (-110)).1 IMPLIED_BREAKEVEN_PROB),
    "PrizePicks"⟩

/-! ## Supporting lemmas -/

theorem calculate_implied_probability_pos (o : ℤ) (h : validate_american_odds o = true) :
    0 < calculate_implied_probability o := by
  have h' : o ≤ -100 ∨ 100 ≤ o := of_decide_eq_true h
  unfold calculate_implied_probability
  rcases h' with h1 | h2
  · rw [if_neg (by omega)]
    have ho : (o : ℚ) ≠ 0 := by
      exact_mod_cast (by omega : o ≠ 0)
    have habs : (0 : ℚ) < |(o : ℚ)| := abs_pos.mpr ho
    exact div_pos habs (by linarith)
  · rw [if_pos (by omega)]
    have hc : (100 : ℚ) ≤ (o : ℚ) := by exact_mod_cast h2
    exact div_pos (by norm_num) (by linarith)

theorem devig_sum_eq_one (o u : ℤ) (ho : validate_american_odds o = true)
    (hu : validate_american_odds u = true) :
    (devig_pinnacle_odds o u).1 + (devig_pinnacle_odds o u).2 = 1 := by
  have hio := calculate_implied_probability_pos o ho
  have hiu := calculate_implied_probability_pos u hu
  unfold devig_pinnacle_odds
  have htot : calculate_implied_probability o + calculate_implied_probability u ≠ 0 := by
    linarith
  field_simp

theorem foldl_mul_const (b : ℝ) (n : ℕ) :
    ∀ a : ℝ, List.foldl (fun p q => p * q) a (List.replicate n b) = a * b ^ n := by
  induction n with
  | zero => intro a; simp
  | succ k ih =>
    intro a
    rw [List.replicate_succ, List.foldl_cons, ih, pow_succ]
    ring

/-! ## Claims -/

/-- C1 (amended): for every valid pair of American odds the devigged pair sums
to 1 within 1e-9 (in fact exactly); and whenever the two un-devigged implied
probabilities sum to at least 1 — as they do in any real vigged two-sided
market — each devigged component is at most the corresponding implied
probability.  (The component bound fails for valid pairs whose implied sum is
below 1, see the counterexample.) -/
theorem devig_normalizes_and_discounts (o u : ℤ)
    (ho : validate_american_odds o = true) (hu : validate_american_odds u = true) :
    |(devig_pinnacle_odds o u).1 + (devig_pinnacle_odds o u).2 - 1| ≤ 1e-9 ∧
    (1 ≤ calculate_implied_probability o + calculate_implied_probability u →
      (devig_pinnacle_odds o u).1 ≤ calculate_implied_probability o ∧
      (devig_pinnacle_odds o u).2 ≤ calculate_implied_probability u) := by
  have hio := calculate_implied_probability_pos o ho
  have hiu := calculate_implied_probability_pos u hu
  have htot : 0 < calculate_implied_probability o + calculate_implied_probability u := by
    linarith
  constructor
  · rw [devig_sum_eq_one o u ho hu]
    norm_num
  · intro hge
    unfold devig_pinnacle_odds
    constructor
    · rw [div_le_iff htot]
      nlinarith
    · rw [div_le_iff htot]
      nlinarith

/-- C1 (counterexample): (+200, +200) is a valid odds pair, the devigged pair
still sums to 1, but each devigged component (1/2) EXCEEDS the un-devigged
implied probability (1/3), refuting the claimed component bound. -/
theorem devig_discount_counterexample :
    validate_american_odds 200 = true ∧
    (devig_pinnacle_odds 200 200).1 + (devig_pinnacle_odds 200 200).2 = 1 ∧
    calculate_implied_probability 200 = 1 / 3 ∧
    (devig_pinnacle_odds 200 200).1 = 1 / 2 ∧
    ¬(devig_pinnacle_odds 200 200).1 ≤ calculate_implied_probability 200 := by
  refine ⟨by decide, ?_, ?_, ?_, ?_⟩ <;>
    norm_num [devig_pinnacle_odds, calculate_implied_probability]

/-- C1 witness: the amended theorem applied at the standard (-110, -110)
pair, whose implied probabilities sum to 22/21 ≥ 1. -/
theorem devig_normalizes_witness :
    validate_american_odds (-110) = true ∧
    (|(devig_pinnacle_odds (-110) (-110)).1 + (devig_pinnacle_odds (-110) (-110)).2 - 1| ≤ 1e-9 ∧
      (1 ≤ calculate_implied_probability (-110) + calculate_implied_probability (-110) →
        (devig_pinnacle_odds (-110) (-110)).1 ≤ calculate_implied_probability (-110) ∧
        (devig_pinnacle_odds (-110) (-110)).2 ≤ calculate_implied_probability (-110))) :=
  ⟨by decide, devig_normalizes_and_discounts (-110) (-110) (by decide) (by decide)⟩
/-- C5: for every positive payout multiplier and positive leg count, the
breakeven probability raised to the number of legs is `1/p` (within 1e-8 —
in fact exactly), and a parlay of that probability on every leg has zero EV
(within 1e-8 — in fact exactly). -/
theorem breakeven_roundtrip (p : ℝ) (n : ℕ) (hp : 0 < p) (hn : 0 < n) :
    |calculate_breakeven_probability p n ^ n - 1 / p| ≤ 1e-8 ∧
    |calculate_parlay_ev (List.replicate n (calculate_breakeven_probability p n)) p| ≤ 1e-8 := by
  have h1p : (0 : ℝ) ≤ 1 / p := by positivity
  have hn' : (n : ℝ) ≠ 0 := Nat.cast_ne_zero.mpr hn.ne'
  have hb : calculate_breakeven_probability p n ^ n = 1 / p := by
    unfold calculate_breakeven_probability
    rw [← Real.rpow_natCast ((1 / p) ^ ((1 : ℝ) / (n : ℝ))) n, ← Real.rpow_mul h1p,
      one_div (n : ℝ), inv_mul_cancel₀ hn', Real.rpow_one]
  constructor
  · rw [hb]
    norm_num
  · have hz : calculate_parlay_ev (List.replicate n (calculate_breakeven_probability p n)) p = 0 := by
      unfold calculate_parlay_ev calculate_parlay_probability
      rw [foldl_mul_const, one_mul, hb]
      field_simp
    rw [hz]
    norm_num

/-- C5 witness: the round-trip at the 2-leg 3x structure. -/
theorem breakeven_roundtrip_witness :
    (0 : ℝ) < 3 ∧ 0 < 2 ∧
    (|calculate_breakeven_probability 3 2 ^ 2 - 1 / 3| ≤ 1e-8 ∧
      |calculate_parlay_ev (List.replicate 2 (calculate_breakeven_probability 3 2)) 3| ≤ 1e-8) :=
  ⟨by norm_num, by norm_num, breakeven_roundtrip 3 2 (by norm_num) (by norm_num)⟩

theorem insertLegRow_slips (i : ℕ) (s : LedgerState) (leg : PyVal) :
    (insertLegRow i s leg).slips = s.slips := by
  cases leg <;> rfl

theorem foldl_insertLegRow_slips (i : ℕ) (legs : List PyVal) :
    ∀ s : LedgerState, (List.foldl (insertLegRow i) s legs).slips = s.slips := by
  induction legs with
  | nil => intro s; rfl
  | cons a as ih =>
    intro s
    rw [List.foldl_cons, ih, insertLegRow_slips]

theorem foldl_insertLegRow_malformed (i : ℕ) (legs : List PyVal) :
    ∀ s : LedgerState, (∀ l ∈ legs, l.isDict = false) →
      List.foldl (insertLegRow i) s legs = s := by
  induction legs with
  | nil => intro s _; rfl
  | cons a as ih =>
    intro s h
    rw [List.foldl_cons]
    have ha : insertLegRow i s a = s := by
      have hd := h a (List.mem_cons_self a as)
      cases a <;> first
        | rfl
        | (exfalso; simp [PyVal.isDict] at hd)
    rw [ha]
    exact ih s (fun l hl => h l (List.mem_cons_of_mem a hl))

/-- C6: settling an existing slip (whose stake is positive, per the creation
invariant) returns success and persists the clamped payout together with the
claimed status classification; settling a nonexistent slip id returns failure
and leaves the ledger unchanged. -/
theorem update_slip_status_settles :
    (∀ (st : LedgerState) (slipId : ℕ) (payout : ℚ) (slip : Slip),
      dictGet st.slips slipId = some slip → 0 < slip.stake →
      (update_slip_status st slipId payout).1 = true ∧
      ∃ slip',
        dictGet (update_slip_status st slipId payout).2.slips slipId = some slip' ∧
        slip'.payout = (if payout < 0 then 0 else payout) ∧
        slip'.stake = slip.stake ∧ slip'.book = slip.book ∧
        (slip.stake < (if payout < 0 then 0 else payout) → slip'.status = "Profit") ∧
        ((if payout < 0 then 0 else payout) = slip.stake → slip'.status = "Push") ∧
        (0 < (if payout < 0 then 0 else payout) ∧
            (if payout < 0 then 0 else payout) < slip.stake → slip'.status = "Partial") ∧
        ((if payout < 0 then 0 else payout) ≤ 0 → slip'.status = "Lost")) ∧
    (∀ (st : LedgerState) (slipId : ℕ) (payout : ℚ),
      dictGet st.slips slipId = none →
      update_slip_status st slipId payout = (false, st)) := by
  constructor
  · intro st slipId payout slip h hstake
    unfold update_slip_status
    rw [h]
    refine ⟨rfl, _, dictGet_dictSet_self _ _ _, rfl, rfl, rfl, ?_, ?_, ?_, ?_⟩
    · intro hc
      simp only
      rw [if_pos hc]
    · intro hc
      simp only
      rw [if_neg (by rw [hc]; exact lt_irrefl _), if_pos hc]
    · rintro ⟨hc0, hcs⟩
      simp only
      rw [if_neg (by linarith), if_neg (ne_of_lt hcs), if_pos hc0]
    · intro hc
      simp only
      rw [if_neg (by linarith), if_neg (ne_of_lt (lt_of_le_of_lt hc hstake)),
        if_neg (by linarith)]
  · intro st slipId payout h
    unfold update_slip_status
    rw [h]

/-- C6 witness: the settlement theorem at a concrete one-slip ledger, payout
30 against stake 10, and at a missing slip id. -/
theorem update_slip_status_settles_witness :
    ((update_slip_status c6State 1 30).1 = true ∧
      ∃ slip',
        dictGet (update_slip_status c6State 1 30).2.slips 1 = some slip' ∧
        slip'.payout = (if (30 : ℚ) < 0 then 0 else 30) ∧
        slip'.stake = c6Slip.stake ∧ slip'.book = c6Slip.book ∧
        (c6Slip.stake < (if (30 : ℚ) < 0 then 0 else 30) → slip'.status = "Profit") ∧
        ((if (30 : ℚ) < 0 then 0 else 30) = c6Slip.stake → slip'.status = "Push") ∧
        ((0 : ℚ) < (if (30 : ℚ) < 0 then 0 else 30) ∧
            (if (30 : ℚ) < 0 then 0 else 30) < c6Slip.stake → slip'.status = "Partial") ∧
        ((if (30 : ℚ) < 0 then (0 : ℚ) else 30) ≤ 0 → slip'.status = "Lost")) ∧
    update_slip_status c6State 99 30 = (false, c6State) :=
  ⟨update_slip_status_settles.1 c6State 1 30 c6Slip rfl (by norm_num [c6Slip]),
    update_slip_status_settles.2 c6State 99 30 rfl⟩

/-- C7 (counterexample): a later settlement call DOES change a terminal
status — settling the reachable slip with payout 30 puts it in the terminal
state `Profit`, and re-settling with payout 0 moves it to `Lost`, so "no
ledger operation ever changes a terminal status" is false. -/
theorem slip_terminal_counterexample :
    create_slip ⟨[], [], 1⟩ "PrizePicks" 10 c7Legs none = Except.ok (1, c7State) ∧
    statusAt (update_slip_status c7State 1 30).2 1 = some "Profit" ∧
    "Profit" ∈ terminalStatuses ∧
    statusAt (update_slip_status (update_slip_status c7State 1 30).2 1 0).2 1 =
      some "Lost" :=
  ⟨rfl, rfl, by simp [terminalStatuses], rfl⟩

/-- C7 (amended): once a slip's status is terminal it remains in the terminal
SET under every ledger operation — a later settlement call may replace one
terminal status with another (re-settlement overwrites), but never returns a
slip to `Pending`, and slip creation never touches an existing slip. -/
theorem slip_terminal_set_closed :
    (∀ (st : LedgerState) (slipId id' : ℕ) (payout : ℚ) (slip slip' : Slip),
      dictGet st.slips id' = some slip → slip.status ∈ terminalStatuses →
      dictGet (update_slip_status st slipId payout).2.slips id' = some slip' →
      slip'.status ∈ terminalStatuses) ∧
    (∀ (st : LedgerState) (book : String) (stake : ℚ) (legs : List PyVal)
      (note : Option String) (res : ℕ) (st' : LedgerState) (id : ℕ) (slip : Slip),
      create_slip st book stake legs note = Except.ok (res, st') →
      dictGet st.slips id = some slip → dictGet st'.slips id = some slip) := by
  constructor
  · intro st slipId id' payout slip slip' h hterm h'
    unfold update_slip_status at h'
    cases hfind : dictGet st.slips slipId with
    | none =>
      rw [hfind] at h'
      dsimp only at h'
      rw [h] at h'
      injection h' with hh
      rw [← hh]
      exact hterm
    | some s =>
      rw [hfind] at h'
      dsimp only at h'
      by_cases hid : id' = slipId
      · subst hid
        rw [dictGet_dictSet_self] at h'
        injection h' with hh
        rw [← hh]
        simp only
        split_ifs <;> simp [terminalStatuses]
      · rw [dictGet_dictSet_ne _ _ _ _ hid] at h'
        rw [h] at h'
        injection h' with hh
        rw [← hh]
        exact hterm
  · intro st book stake legs note res st' id slip hc h
    unfold create_slip at hc
    split_ifs at hc with h1 h2
    simp only [Except.ok.injEq, Prod.mk.injEq] at hc
    obtain ⟨hh1, hh2⟩ := hc
    rw [← hh2, foldl_insertLegRow_slips]
    exact dictGet_append_left _ _ _ _ h

/-- C7 witness (amended theorem): re-settling a terminal `Profit` slip with
payout 0 yields a slip whose status `Lost` is still terminal. -/
theorem slip_terminal_set_closed_witness :
    (⟨"PrizePicks", 10, 0, "Lost", none⟩ : Slip).status ∈ terminalStatuses :=
  slip_terminal_set_closed.1 ⟨[(1, ⟨"PrizePicks", 10, 30, "Profit", none⟩)], [], 2⟩ 1 1 0
    ⟨"PrizePicks", 10, 30, "Profit", none⟩ ⟨"PrizePicks", 10, 0, "Lost", none⟩
    rfl (by simp [terminalStatuses]) (by norm_num [update_slip_status, dictGet, dictSet])

/-- C8: the P/L derivation of the slips listing computes `payout - stake`
only for the legacy status `Won`; the status `Profit` — the status the
settlement operation actually writes for winning slips — falls through to
the unrecognized branch and is annotated with no P/L value, contradicting
the claimed `payout - stake` for `Profit`. -/
theorem slips_profit_pl_missing :
    get_all_slips ⟨[(1, ⟨"PrizePicks", 10, 30, "Profit", none⟩)], [], 2⟩ =
      [(1, "Profit", none)] ∧
    slip_pl "Profit" 10 30 = none ∧
    slip_pl "Won" 10 30 = some 20 ∧
    slip_pl "Lost" 10 0 = some (-10) ∧
    slip_pl "Push" 10 10 = some 0 ∧
    slip_pl "Pending" 10 0 = none := by
  refine ⟨rfl, rfl, ?_, ?_, ?_, rfl⟩
  · unfold slip_pl
    rw [if_pos rfl]
    norm_num
  · unfold slip_pl
    rw [if_neg (by decide), if_pos rfl]
  · unfold slip_pl
    rw [if_neg (by decide), if_neg (by decide), if_pos rfl]

/-- C10: creating a slip with a positive stake and a nonempty legs list whose
elements are ALL malformed (non-dict) succeeds, allocates the next slip id,
persists the slip row — and persists no leg row at all (the legs table is
unchanged), so the nonempty-legs precondition does not guarantee a persisted
leg. -/
theorem create_slip_all_malformed (st : LedgerState) (book : String) (stake : ℚ)
    (legs : List PyVal) (note : Option String)
    (hstake : 0 < stake) (hne : legs ≠ [])
    (hmal : ∀ l ∈ legs, l.isDict = false) :
    create_slip st book stake legs note =
      Except.ok (st.nextId,
        { st with
            slips := st.slips ++ [(st.nextId, ⟨book, stake, 0, "Pending", note⟩)],
            nextId := st.nextId + 1 }) := by
  unfold create_slip
  rw [if_neg (by linarith), if_neg (fun hemp => hne (List.isEmpty_iff.mp hemp))]
  rw [foldl_insertLegRow_malformed _ _ _ hmal]

/-- C10 witness: two malformed legs (a string and an int) yield a persisted
slip with id 1 and an empty legs table. -/
theorem create_slip_all_malformed_witness :
    create_slip ⟨[], [], 1⟩ "PrizePicks" 10 [PyVal.vStr "oops", PyVal.vInt 3] none =
      Except.ok (1, ⟨[(1, ⟨"PrizePicks", 10, 0, "Pending", none⟩)], [], 2⟩) := by
  have h := create_slip_all_malformed ⟨[], [], 1⟩ "PrizePicks" 10
    [PyVal.vStr "oops", PyVal.vInt 3] none (by norm_num) (by simp)
    (by intro l hl; fin_cases hl <;> rfl)
  simpa using h

/-- C9: the coercion family is claimed never to raise, but `safe_int` DOES
raise: `int(value)` on a NaN float raises `ValueError` outside any
try/except (the float branch has none), on an infinite float raises
`OverflowError`, and a string parsing to an infinity raises `OverflowError`,
which the str branch's `except ValueError` does not catch.  The remaining
inputs and the sibling coercions (`safe_currency_to_float`, `safe_float`,
`safe_dict_get`, `safe_list_get`, embedded as total functions because every
raising path in their bodies is caught) return values or the default. -/
theorem safe_int_raises_on_nonfinite :
    safe_int (.vFloat .nan) 0 = .error .valueError ∧
    safe_int (.vFloat .inf) 0 = .error .overflowError ∧
    safe_int (.vStr "inf") 0 = .error .overflowError ∧
    safe_int (.vStr " -Infinity ") 0 = .error .overflowError ∧
    safe_int (.vStr "abc") 5 = .ok 5 ∧
    safe_int (.vStr "nan") 7 = .ok 7 ∧
    safe_int (.vInt 9) 0 = .ok 9 ∧
    safe_int (.vFloat (.finite 2)) 0 = .ok 2 ∧
    safe_int .vNone 4 = .ok 4 ∧
    safe_currency_to_float (.vStr "not a number") = .finite 0 ∧
    safe_float (.vStr "oops") (.finite 1) = .finite 1 ∧
    safe_dict_get (.vStr "x") "k" (.vInt 1) none = .vInt 1 ∧
    safe_list_get (.vList []) 3 .vNone = .vNone :=
  ⟨rfl, rfl, rfl, rfl, rfl, rfl, rfl, rfl, rfl, rfl, rfl, rfl, rfl⟩

theorem mem_emitForBook (eventId player market : String) (point : ℚ)
    (sharpOver sharpUnder : ℤ) (fairO fairU evO evU : ℚ)
    (books : GroupBooks) (dfsBook : String) (opp : Opportunity)
    (h : opp ∈ emitForBook eventId player market point sharpOver sharpUnder
      fairO fairU evO evU books dfsBook) :
    opp.pinnacleOverPrice = sharpOver ∧ opp.pinnacleUnderPrice = sharpUnder ∧
      ((opp.fairWinProb = fairO ∧ opp.evPercentage = evO) ∨
        (opp.fairWinProb = fairU ∧ opp.evPercentage = evU)) := by
  unfold emitForBook at h
  cases hd : dictGet books dfsBook with
  | none => rw [hd] at h; simp at h
  | some dfsOdds =>
    rw [hd] at h
    dsimp only at h
    rw [List.mem_append] at h
    rcases h with h | h
    · split_ifs at h
      · rw [List.mem_singleton] at h
        subst h
        exact ⟨rfl, rfl, Or.inl ⟨rfl, rfl⟩⟩
      · simp at h
    · split_ifs at h
      · rw [List.mem_singleton] at h
        subst h
        exact ⟨rfl, rfl, Or.inr ⟨rfl, rfl⟩⟩
      · simp at h

theorem mem_processGroup (eid : String) (key : GroupKey) (books : GroupBooks)
    (opp : Opportunity) (h : opp ∈ processGroup eid key books) :
    ∃ src sharpOver sharpUnder,
      sharpSourceOf books = some src ∧
      dictGet (dictGetD books src []) "Over" = some sharpOver ∧
      dictGet (dictGetD books src []) "Under" = some sharpUnder ∧
      validate_american_odds sharpOver = true ∧
      validate_american_odds sharpUnder = true ∧
      opp.pinnacleOverPrice = sharpOver ∧ opp.pinnacleUnderPrice = sharpUnder ∧
      ((opp.fairWinProb = (devig_pinnacle_odds sharpOver sharpUnder).1 ∨
        opp.fairWinProb = (devig_pinnacle_odds sharpOver sharpUnder).2) ∧
        opp.evPercentage =
          applyConfidence (dictGetD SHARP_CONFIDENCE src 0.75)
            (calculate_ev_percentage opp.fairWinProb IMPLIED_BREAKEVEN_PROB)) := by
  unfold processGroup at h
  cases hsrc : sharpSourceOf books with
  | none => rw [hsrc] at h; simp at h
  | some src =>
    rw [hsrc] at h
    dsimp only at h
    cases hov : dictGet (dictGetD books src []) "Over" with
    | none => rw [hov] at h; simp at h
    | some sharpOver =>
      rw [hov] at h
      cases hun : dictGet (dictGetD books src []) "Under" with
      | none => rw [hun] at h; simp at h
      | some sharpUnder =>
        rw [hun] at h
        dsimp only at h
        by_cases hv : validate_american_odds sharpOver && validate_american_odds sharpUnder
        · rw [if_pos hv] at h
          rw [Bool.and_eq_true] at hv
          rw [mem_concatMap] at h
          obtain ⟨b, _, hb⟩ := h
          have hfields := mem_emitForBook _ _ _ _ _ _ _ _ _ _ _ _ _ hb
          refine ⟨src, sharpOver, sharpUnder, rfl, hov, hun, hv.1, hv.2,
            hfields.1, hfields.2.1, ?_⟩
          rcases hfields.2.2 with ⟨hf, he⟩ | ⟨hf, he⟩
          · exact ⟨Or.inl hf, by rw [hf, he]⟩
          · exact ⟨Or.inr hf, by rw [hf, he]⟩
        · rw [if_neg hv] at h
          simp at h

/-- C2: a (player, market, line) group where the sharp book quotes both sides
and a configured DFS book quotes only the Over at the SAME line emits exactly
one opportunity — for the Over side at that DFS book; if the DFS quote sits
at a DIFFERENT line, the batch emits nothing at all for that player and
market (the line is part of the grouping key, there is no cross-line
matching). -/
theorem line_matching_emission (e p m : String) (L1 L2 : ℚ) (o u d : ℤ)
    (hp : p ≠ "") (hm : m ≠ "") (ho : validate_american_odds o = true)
    (hu : validate_american_odds u = true) (hL : L2 ≠ L1) :
    ((find_and_save_ev_opportunities
        [⟨e, p, m, L1, "pinnacle", "Over", some o⟩,
         ⟨e, p, m, L1, "pinnacle", "Under", some u⟩,
         ⟨e, p, m, L1, "prizepicks", "Over", some d⟩]).map
        (fun opp => (opp.playerName, opp.market, opp.dfsBook)) =
      [(p, m ++ "_over", "PrizePicks")]) ∧
    find_and_save_ev_opportunities
        [⟨e, p, m, L1, "pinnacle", "Over", some o⟩,
         ⟨e, p, m, L1, "pinnacle", "Under", some u⟩,
         ⟨e, p, m, L2, "prizepicks", "Over", some d⟩] = [] := by
  constructor <;>
    simp [find_and_save_ev_opportunities, insertRecord, processGroup, sharpSourceOf,
      emitForBook, dictGet, dictSet, dictGetD, dictContains, concatMap,
      DFS_BOOKMAKERS, DFS_BOOK_NAMES, SHARP_BOOKMAKER, FALLBACK_SHARP_BOOKMAKER,
      SHARP_CONFIDENCE, List.foldl, hp, hm, ho, hu, hL, Prod.mk.injEq]

/-- C2 witness: the emission theorem at the spec's own example — sharp
-110 both sides at 25.5, PrizePicks Over at 25.5 (one Over opportunity),
and PrizePicks Over at 26.5 (nothing). -/
theorem line_matching_emission_witness :
    ((find_and_save_ev_opportunities
        [⟨"ev1", "LeBron James", "player_points", 25.5, "pinnacle", "Over", some (-110)⟩,
         ⟨"ev1", "LeBron James", "player_points", 25.5, "pinnacle", "Under", some (-110)⟩,
         ⟨"ev1", "LeBron James", "player_points", 25.5, "prizepicks", "Over", some (-110)⟩]).map
        (fun opp => (opp.playerName, opp.market, opp.dfsBook)) =
      [("LeBron James", "player_points" ++ "_over", "PrizePicks")]) ∧
    find_and_save_ev_opportunities
        [⟨"ev1", "LeBron James", "player_points", 25.5, "pinnacle", "Over", some (-110)⟩,
         ⟨"ev1", "LeBron James", "player_points", 25.5, "pinnacle", "Under", some (-110)⟩,
         ⟨"ev1", "LeBron James", "player_points", 26.5, "prizepicks", "Over", some (-110)⟩] =
      [] :=
  line_matching_emission "ev1" "LeBron James" "player_points" 25.5 26.5 (-110) (-110) (-110)
    (by decide) (by decide) (by decide) (by decide) (by norm_num)

/-- C3: sharp-reference selection and gating — Pinnacle present wins,
otherwise FanDuel, otherwise the group is dropped; a chosen sharp book
missing either side drops the group; a sharp price failing the dead-zone
validation drops the group; and every emitted opportunity carries the chosen
sharp book's Over/Under prices. -/
theorem sharp_selection_gates :
    (∀ books : GroupBooks, dictContains books SHARP_BOOKMAKER = true →
      sharpSourceOf books = some SHARP_BOOKMAKER) ∧
    (∀ books : GroupBooks, dictContains books SHARP_BOOKMAKER = false →
      dictContains books FALLBACK_SHARP_BOOKMAKER = true →
      sharpSourceOf books = some FALLBACK_SHARP_BOOKMAKER) ∧
    (∀ (eid : String) (key : GroupKey) (books : GroupBooks),
      dictContains books SHARP_BOOKMAKER = false →
      dictContains books FALLBACK_SHARP_BOOKMAKER = false →
      processGroup eid key books = []) ∧
    (∀ (eid : String) (key : GroupKey) (books : GroupBooks) (src : String),
      sharpSourceOf books = some src →
      (dictGet (dictGetD books src []) "Over" = none ∨
        dictGet (dictGetD books src []) "Under" = none) →
      processGroup eid key books = []) ∧
    (∀ (eid : String) (key : GroupKey) (books : GroupBooks) (src : String) (o u : ℤ),
      sharpSourceOf books = some src →
      dictGet (dictGetD books src []) "Over" = some o →
      dictGet (dictGetD books src []) "Under" = some u →
      (validate_american_odds o = false ∨ validate_american_odds u = false) →
      processGroup eid key books = []) ∧
    (∀ (eid : String) (key : GroupKey) (books : GroupBooks) (src : String) (o u : ℤ)
      (opp : Opportunity),
      sharpSourceOf books = some src →
      dictGet (dictGetD books src []) "Over" = some o →
      dictGet (dictGetD books src []) "Under" = some u →
      opp ∈ processGroup eid key books →
      opp.pinnacleOverPrice = o ∧ opp.pinnacleUnderPrice = u) := by
  refine ⟨?_, ?_, ?_, ?_, ?_, ?_⟩
  · intro books h
    simp [sharpSourceOf, h]
  · intro books h1 h2
    simp [sharpSourceOf, h1, h2]
  · intro eid key books h1 h2
    simp [processGroup, sharpSourceOf, h1, h2]
  · intro eid key books src hsrc hside
    unfold processGroup
    rw [hsrc]
    rcases hside with h | h
    · simp [h]
    · cases hov : dictGet (dictGetD books src []) "Over" <;> simp [h, hov]
  · intro eid key books src o u hsrc hov hun hval
    unfold processGroup
    rw [hsrc]
    dsimp only
    rw [hov, hun]
    rcases hval with h | h <;> simp [h]
  · intro eid key books src o u opp hsrc hov hun hmem
    obtain ⟨src', o', u', hsrc', hov', hun', _, _, hpo, hpu, _⟩ :=
      mem_processGroup eid key books opp hmem
    rw [hsrc] at hsrc'
    injection hsrc' with hs
    subst hs
    rw [hov] at hov'
    injection hov' with hho
    rw [hun] at hun'
    injection hun' with hhu
    subst hho
    subst hhu
    exact ⟨hpo, hpu⟩

/-- C3 witness: the selection/gating theorem at concrete groups — Pinnacle
preferred over FanDuel, FanDuel fallback, no sharp book, missing Under side,
and a dead-zone sharp price (+50). -/
theorem sharp_selection_gates_witness :
    sharpSourceOf [("pinnacle", [("Over", -110)]), ("fanduel", [("Over", -105)])] =
      some SHARP_BOOKMAKER ∧
    sharpSourceOf [("fanduel", [("Over", -105)])] = some FALLBACK_SHARP_BOOKMAKER ∧
    processGroup "e" ("p", "m", 1) [("prizepicks", [("Over", -110)])] = [] ∧
    processGroup "e" ("p", "m", 1) [("pinnacle", [("Over", -110)])] = [] ∧
    processGroup "e" ("p", "m", 1) [("pinnacle", [("Over", 50), ("Under", -110)])] = [] :=
  ⟨sharp_selection_gates.1 _ rfl,
    sharp_selection_gates.2.1 _ rfl rfl,
    sharp_selection_gates.2.2.1 "e" _ _ rfl rfl,
    sharp_selection_gates.2.2.2.1 "e" _ _ "pinnacle" rfl (Or.inr rfl),
    sharp_selection_gates.2.2.2.2.1 "e" _ _ "pinnacle" 50 (-110) rfl rfl rfl (Or.inl rfl)⟩

/-- C4: the confidence haircut multiplies strictly positive raw EV by the
sharp source's confidence factor and leaves non-positive raw EV unchanged —
so it never makes a negative EV more negative and never produces a positive
EV from a non-positive one; and every opportunity the matcher emits carries
exactly this discounted EV for its fair probability. -/
theorem confidence_discount :
    (∀ confidence rawEv : ℚ,
      (0 < rawEv → applyConfidence confidence rawEv = rawEv * confidence) ∧
      (rawEv ≤ 0 → applyConfidence confidence rawEv = rawEv)) ∧
    (∀ confidence rawEv : ℚ, rawEv ≤ 0 →
      rawEv ≤ applyConfidence confidence rawEv ∧ applyConfidence confidence rawEv ≤ 0) ∧
    (∀ (eid : String) (key : GroupKey) (books : GroupBooks) (opp : Opportunity),
      opp ∈ processGroup eid key books →
      ∃ src, sharpSourceOf books = some src ∧
        opp.evPercentage =
          applyConfidence (dictGetD SHARP_CONFIDENCE src 0.75)
            (calculate_ev_percentage opp.fairWinProb IMPLIED_BREAKEVEN_PROB)) := by
  refine ⟨?_, ?_, ?_⟩
  · intro confidence rawEv
    constructor
    · intro h
      unfold applyConfidence
      rw [if_pos h]
    · intro h
      unfold applyConfidence
      rw [if_neg (not_lt.mpr h)]
  · intro confidence rawEv h
    unfold applyConfidence
    rw [if_neg (not_lt.mpr h)]
    exact ⟨le_refl _, h⟩
  · intro eid key books opp hmem
    obtain ⟨src, o, u, hsrc, _, _, _, _, _, _, _, hev⟩ :=
      mem_processGroup eid key books opp hmem
    exact ⟨src, hsrc, hev⟩

/-- C4 witness: the discount theorem at the concrete group `c4Books`, whose
single emitted opportunity is `c4Opp`. -/
theorem confidence_discount_witness :
    ∃ src, sharpSourceOf c4Books = some src ∧
      c4Opp.evPercentage =
        applyConfidence (dictGetD SHARP_CONFIDENCE src 0.75)
          (calculate_ev_percentage c4Opp.fairWinProb IMPLIED_BREAKEVEN_PROB) :=
  confidence_discount.2.2 "e" ("p", "m", 1) c4Books c4Opp
    (by rw [(rfl : processGroup "e" ("p", "m", 1) c4Books = [c4Opp])]
        exact List.mem_singleton_self c4Opp)

end EvEngine
